import Mathlib

/-!
Verification of the adaptive health-evaluation engine of the
`last_seen_guardian` Home Assistant integration.

The definitions below are a shallow embedding of the Python source:

* `custom_components/last_seen_guardian/evaluator.py`
  (`LSGEvaluator._async_update_entity_learning`, `_evaluate_health`,
  `_async_schedule_save`, `_async_periodic_save`)
* `custom_components/last_seen_guardian/data_validator.py`
  (`DataValidator.validate_learning_state`)
* `custom_components/last_seen_guardian/const.py` (the constants used above)

Python floats are modelled as rationals (`ℚ`); timestamps are rationals.
Machine floating point rounding, `nan`/`inf` and the exact grammar Python's
`float()`/`int()` accept on strings are not modelled; no claim below depends
on them.
-/

/-- Health states, from `const.py` (`HEALTH_OK`, `HEALTH_LATE`,
`HEALTH_STALE`, `HEALTH_UNKNOWN`). -/
inductive Health where
  | ok : Health
  | late : Health
  | stale : Health
  | unknown : Health
deriving DecidableEq

/-- One element of the per-entity `history` list, appended by
`_async_update_entity_learning` (evaluator.py lines 130-134). -/
structure HistEntry where
  timestamp : ℚ
  interval : ℚ
  state : String
deriving DecidableEq

/-- The per-entity learning record, as created by
`_async_update_entity_learning` (evaluator.py lines 98-107).  The
`technical_context` sub-map written by `_extract_technical_context` touches no
other field and no claim mentions it, so it is not modelled. -/
structure EntityState where
  last_event : Option ℚ
  interval_ewma : Option ℚ
  interval_variance : ℚ
  event_count : ℕ
  threshold : Option ℚ
  last_health : Health
  history : List HistEntry
deriving DecidableEq

/-- Smoothing factor, evaluator.py line 117 (`alpha = 0.3`). -/
def alpha : ℚ := 3 / 10

/-- evaluator.py line 29. -/
def SAVE_DEBOUNCE_SECONDS : ℚ := 30

/-- evaluator.py line 30. -/
def SAVE_MAX_WAIT_SECONDS : ℚ := 300

/-- const.py line 61. -/
def MAX_LEARNING_STATE_SIZE : ℕ := 1000

/-- const.py line 62. -/
def MAX_HISTORY_PER_ENTITY : ℕ := 50

/-- const.py line 63. -/
def MAX_HISTORY_AGE_DAYS : ℕ := 30

/-- The record created for a not-yet-tracked entity,
evaluator.py lines 98-107.  Note that `last_event` is initialised to the
current time `now`, not to `None`. -/
def initial_entity_state (now : ℚ) : EntityState :=
  { last_event := some now
    interval_ewma := Option.none
    interval_variance := 0
    event_count := 0
    threshold := Option.none
    last_health := Health.unknown
    history := [] }

/-- The EWMA update of evaluator.py lines 116-123: seed with the raw interval
when no EWMA exists, otherwise `(1 - alpha) * old + alpha * interval`. -/
def ewma_next (old : Option ℚ) (interval : ℚ) : ℚ :=
  match old with
  | Option.none => interval
  | some o => (1 - alpha) * o + alpha * interval

/-- `LSGEvaluator._evaluate_health` (evaluator.py lines 281-302) applied to an
existing record.  `state.get("last_event", now)` is `Option.getD`; the code
would raise if the stored value were `None` with `event_count ≥ 2` and a
positive threshold, a situation no claim touches. -/
def evaluate_health (st : EntityState) (now : ℚ) : Health :=
  if st.event_count < 2 then Health.unknown
  else
    let last_event := st.last_event.getD now
    let interval := now - last_event
    match st.threshold with
    | Option.none => Health.unknown
    | some threshold =>
      if threshold ≤ 0 then Health.unknown
      else if interval < threshold * (11 / 10) then Health.ok
      else if interval < threshold * 2 then Health.late
      else Health.stale

/-- The body of the `if entity_state["last_event"] is not None:` block of
`_async_update_entity_learning` (evaluator.py lines 111-136): interval,
EWMA, threshold and history update.  The history cap of 100 is the literal
at line 135. -/
def update_learning_fields (st : EntityState) (now : ℚ) (raw_state : String)
    (mult : ℚ) : EntityState :=
  match st.last_event with
  | Option.none => st
  | some last_ev =>
      let interval := now - last_ev
      let ewma := ewma_next st.interval_ewma interval
      let hist := st.history ++ [⟨now, interval, raw_state⟩]
      let hist := if hist.length > 100 then hist.drop (hist.length - 100) else hist
      { st with
          interval_ewma := some ewma
          threshold := some (ewma * mult)
          history := hist }

/-- `LSGEvaluator._async_update_entity_learning` (evaluator.py lines 90-147)
for one entity: `prev` is the record currently stored for the entity (if
any), `now` the value of `time.time()`, `mult` the multiplier returned by
`_get_current_threshold_multiplier()` (fetched fresh at this update).
Returns the record left in `self._learning_state[entity_id]`. -/
def async_update_entity_learning (prev : Option EntityState) (now : ℚ)
    (raw_state : String) (mult : ℚ) : EntityState :=
  let st := match prev with
    | Option.none => initial_entity_state now
    | some st => st
  let st := update_learning_fields st now raw_state mult
  let st := { st with last_event := some now, event_count := st.event_count + 1 }
  { st with last_health := evaluate_health st now }

/-- The priority-save condition of evaluator.py line 153:
`old_health != new_health and new_health in (HEALTH_STALE, HEALTH_LATE)`,
where `old_health` is the record's health before the update. -/
def update_triggers_priority_save (prev : Option EntityState) (now : ℚ)
    (raw_state : String) (mult : ℚ) : Bool :=
  let old_health := (match prev with
    | Option.none => initial_entity_state now
    | some st => st).last_health
  let new_health := (async_update_entity_learning prev now raw_state mult).last_health
  decide (old_health ≠ new_health) &&
    (decide (new_health = Health.stale) || decide (new_health = Health.late))

/-- Times of the ten events of the spec's constant-cadence scenario
(one event every 60 seconds). -/
def scenario_times : List ℚ := [0, 60, 120, 180, 240, 300, 360, 420, 480, 540]

/-- The record obtained by processing the ten scenario events with
multiplier 2.5. -/
def scenario_record : EntityState :=
  (scenario_times.foldl
    (fun acc t => some (async_update_entity_learning acc t "on" (5 / 2)))
    Option.none).getD (initial_entity_state 0)

/-- The exact EWMA the code produces in the scenario: the first event seeds
the EWMA with interval 0, the remaining nine intervals of 60 drive it to
`60 * (1 - 0.7 ^ 9)`. -/
def scenario_ewma : ℚ := 60 - 60 * (7 ^ 9 / 10 ^ 9)

/-- A record after two observations at times 100 then 40 (host clock went
backward): the second interval is -60 and is fed to the EWMA unclamped. -/
def clock_anomaly_record : EntityState :=
  async_update_entity_learning
    (some (async_update_entity_learning Option.none 100 "on" (5 / 2))) 40 "on" (5 / 2)

/-! ### Debounced persistence controller

`_async_schedule_save` (evaluator.py lines 244-267) cancels any pending save
task and arms a fresh one with delay 5 (priority) or 30 (non-priority)
seconds; `_async_periodic_save` (lines 269-279) runs on an independent
300-second timer and flushes only when entities changed and at least 300
seconds elapsed since the last flush.  Both are modelled as deterministic
discrete-event machines over rational time. -/

/-- Delay armed by `_async_schedule_save` (evaluator.py lines 251-254). -/
def save_delay (priority : Bool) : ℚ := if priority then 5 else SAVE_DEBOUNCE_SECONDS

/-- Flush times produced by a sequence of `schedule_save` calls, given the
fire time of the currently pending save task (if any).  Each call at time `t`
cancels a task that has not yet fired (`¬ ft < t`) and arms a new one at
`t + save_delay p` (evaluator.py lines 246-267); a task whose fire time lies
strictly before the next call has already flushed.  After the last call the
pending task fires unhindered. -/
def debounce_flushes : Option ℚ → List (ℚ × Bool) → List ℚ
  | pending, [] =>
      match pending with
      | some ft => [ft]
      | Option.none => []
  | pending, (t, p) :: rest =>
      match pending with
      | some ft =>
          if ft < t then ft :: debounce_flushes (some (t + save_delay p)) rest
          else debounce_flushes (some (t + save_delay p)) rest
      | Option.none => debounce_flushes (some (t + save_delay p)) rest

/-- State read by `_async_periodic_save`: `_last_save_time` and whether
`_entities_changed` is non-empty. -/
structure BackstopState where
  lastSave : ℚ
  changed : Bool
deriving DecidableEq

/-- Events seen by the backstop machine: an entity change
(`self._entities_changed.add(...)`, evaluator.py line 150) or a periodic
tick (`_async_periodic_save`). -/
inductive PEvent where
  | change : PEvent
  | tick : PEvent
deriving DecidableEq

/-- One step of the backstop machine at time `t`: a tick flushes iff entities
changed and `t - lastSave ≥ SAVE_MAX_WAIT_SECONDS` (evaluator.py line 273);
a flush records the flush time and clears the changed set
(evaluator.py lines 385-387). -/
def backstop_step (s : BackstopState) (t : ℚ) (e : PEvent) :
    BackstopState × Option ℚ :=
  match e with
  | PEvent.change => ({ s with changed := true }, Option.none)
  | PEvent.tick =>
      if s.changed ∧ SAVE_MAX_WAIT_SECONDS ≤ t - s.lastSave then
        (⟨t, false⟩, some t)
      else (s, Option.none)

/-- Run the backstop machine over a time-ordered list of events, returning
the final state and the flush times.  Debounce flushes are deliberately
absent from the event alphabet: the claims about the backstop presuppose an
execution in which repeated non-priority `schedule_save` calls keep
resetting the debounce timer, so the debounce path never flushes. -/
def backstop_run (s : BackstopState) : List (ℚ × PEvent) → BackstopState × List ℚ
  | [] => (s, [])
  | (t, e) :: rest =>
      let step := backstop_step s t e
      let tail := backstop_run step.1 rest
      (tail.1, match step.2 with
        | some f => f :: tail.2
        | Option.none => tail.2)

/-! ### Data validator

`DataValidator.validate_learning_state` (data_validator.py lines 23-167)
operates on arbitrary JSON-like Python values loaded from the store.
`PyVal` models such values (floats as rationals, dicts as insertion-ordered
association lists with string keys, as in a JSON document).  Python
behaviour that can raise an uncaught exception is modelled in `Except`:
the only uncaught raise points in the function are the comparisons in the
oversize sort (TypeError/AttributeError) and the `>` comparison in the
history age filter (TypeError); `float()`/`int()` coercion failures are
caught by the surrounding `try/except` and therefore modelled as `Option`. -/

/-- Exceptions `validate_learning_state` can leak. -/
inductive PyErr where
  | typeError : PyErr
  | attributeError : PyErr
deriving DecidableEq

/-- JSON-like Python values. -/
inductive PyVal where
  | none : PyVal
  | bool : Bool → PyVal
  | int : Int → PyVal
  | float : ℚ → PyVal
  | str : String → PyVal
  | list : List PyVal → PyVal
  | dict : List (String × PyVal) → PyVal

/-- Python `d[key]` / `d.get(key)` on an insertion-ordered dict. -/
def dictGet : List (String × PyVal) → String → Option PyVal
  | [], _ => Option.none
  | (k, v) :: rest, key => if k = key then some v else dictGet rest key

/-- Python `key in d`. -/
def dictHas (d : List (String × PyVal)) (key : String) : Bool :=
  (dictGet d key).isSome

/-- Python `d[key] = v`: update in place when the key exists (keeping its
position), append otherwise. -/
def dictSet : List (String × PyVal) → String → PyVal → List (String × PyVal)
  | [], key, v => [(key, v)]
  | (k, w) :: rest, key, v =>
      if k = key then (k, v) :: rest else (k, w) :: dictSet rest key v

/-- Numeric value of a Python object for arithmetic comparison purposes
(bools are ints in Python); `Option.none` for non-numbers. -/
def pyNum : PyVal → Option ℚ
  | PyVal.bool b => some (if b then 1 else 0)
  | PyVal.int n => some (n : ℚ)
  | PyVal.float q => some q
  | _ => Option.none

/-- Python `v > bound` against a float bound: numeric comparison, TypeError
otherwise. -/
def pyGtFloat (v : PyVal) (bound : ℚ) : Except PyErr Bool :=
  match pyNum v with
  | some r => Except.ok (decide (bound < r))
  | Option.none => Except.error PyErr.typeError

/-- Python `a < b` as used by the oversize sort.  Numbers compare
numerically, strings lexicographically; every other combination is modelled
as TypeError (Python also compares e.g. two lists elementwise, but no claim
depends on such sort keys). -/
def pyLt (a b : PyVal) : Except PyErr Bool :=
  match pyNum a, pyNum b with
  | some x, some y => Except.ok (decide (x < y))
  | _, _ =>
      match a, b with
      | PyVal.str s, PyVal.str t => Except.ok (decide (s < t))
      | _, _ => Except.error PyErr.typeError

/-- Decimal digits of a string chunk, as a natural number; `Option.none` if
any character is not a digit. -/
def digitsVal : List Char → ℕ → Option ℕ
  | [], acc => some acc
  | c :: cs, acc =>
      if c.isDigit then digitsVal cs (10 * acc + (c.toNat - 48))
      else Option.none

/-- Python `float(s)` on a string, restricted to plain decimal literals
(optional sign, digits, optional fraction).  Exponents, `inf`/`nan` and
surrounding whitespace are not modelled; no claim depends on which strings
parse, only on the result being a float when parsing succeeds. -/
def parsePyFloat (s : String) : Option ℚ :=
  let go : List Char → Option ℚ := fun cs =>
    let intPart := cs.takeWhile Char.isDigit
    let rest := cs.dropWhile Char.isDigit
    match rest with
    | [] =>
        if intPart.isEmpty then Option.none
        else (digitsVal intPart 0).map (fun n => (n : ℚ))
    | '.' :: fracPart =>
        if intPart.isEmpty ∧ fracPart.isEmpty then Option.none
        else
          match digitsVal intPart 0, digitsVal fracPart 0 with
          | some i, some f =>
              some ((i : ℚ) + (f : ℚ) / (10 : ℚ) ^ fracPart.length)
          | _, _ => Option.none
    | _ => Option.none
  match s.toList with
  | '-' :: cs => (go cs).map (fun q => -q)
  | cs => go cs

/-- Python `int(s)` on a string: optional sign then digits only
(`int("3.5")` raises). -/
def parsePyInt (s : String) : Option Int :=
  let go : List Char → Option Int := fun cs =>
    if cs.isEmpty then Option.none
    else (digitsVal cs 0).map (fun n => (n : Int))
  match s.toList with
  | '-' :: cs => (go cs).map (fun n => -n)
  | cs => go cs

/-- Truncation toward zero, Python `int(float)`. -/
def pyTrunc (q : ℚ) : Int := if q < 0 then -⌊-q⌋ else ⌊q⌋

/-- Python `float(v)`; `Option.none` models a ValueError/TypeError, which the
validator always catches around this coercion (data_validator.py
lines 108-122). -/
def pyFloatCoerce : PyVal → Option ℚ
  | PyVal.float q => some q
  | PyVal.int n => some (n : ℚ)
  | PyVal.bool b => some (if b then 1 else 0)
  | PyVal.str s => parsePyFloat s
  | _ => Option.none

/-- Python `int(v)`; `Option.none` models a caught ValueError/TypeError
(data_validator.py lines 126-131). -/
def pyIntCoerce : PyVal → Option Int
  | PyVal.int n => some n
  | PyVal.float q => some (pyTrunc q)
  | PyVal.bool b => some (if b then 1 else 0)
  | PyVal.str s => parsePyInt s
  | _ => Option.none

/-- Monadic list filter in `Except`, evaluating conditions left to right as
a Python list comprehension does. -/
def filterME (p : PyVal → Except PyErr Bool) : List PyVal → Except PyErr (List PyVal)
  | [] => Except.ok []
  | e :: rest =>
      match p e with
      | Except.error err => Except.error err
      | Except.ok keep =>
          match filterME p rest with
          | Except.error err => Except.error err
          | Except.ok rest2 => if keep then Except.ok (e :: rest2) else Except.ok rest2

/-- The keep condition of the history age filter (data_validator.py
lines 85-89): `isinstance(event, dict) and event.get("timestamp", 0) > cutoff`.
The `and` short-circuits, so non-dicts are dropped without comparing; a dict
whose timestamp is not a number makes the `>` raise TypeError. -/
def historyKeep (cutoff : ℚ) (e : PyVal) : Except PyErr Bool :=
  match e with
  | PyVal.dict d => pyGtFloat ((dictGet d "timestamp").getD (PyVal.int 0)) cutoff
  | _ => Except.ok false

/-- History cleaning (data_validator.py lines 81-103): when `history` is a
list, drop entries older than `MAX_HISTORY_AGE_DAYS` and truncate to the
most recent `MAX_HISTORY_PER_ENTITY`; anything else is left untouched. -/
def clean_history (now : ℚ) (d : List (String × PyVal)) :
    Except PyErr (List (String × PyVal)) :=
  match dictGet d "history" with
  | some (PyVal.list evs) =>
      match filterME (historyKeep (now - (MAX_HISTORY_AGE_DAYS : ℚ) * 86400)) evs with
      | Except.error err => Except.error err
      | Except.ok kept =>
          let kept2 := if kept.length > MAX_HISTORY_PER_ENTITY
            then kept.drop (kept.length - MAX_HISTORY_PER_ENTITY) else kept
          Except.ok (dictSet d "history" (PyVal.list kept2))
  | _ => Except.ok d

/-- The field list of data_validator.py line 106.  `event_count` is not in
it, so the `if field == "event_count"` branches inside that loop are dead
code; the integer handling happens separately at lines 125-131. -/
def NUMERIC_FIELDS : List String :=
  ["last_event", "interval_ewma", "threshold", "interval_variance"]

/-- One iteration of the numeric-field loop (data_validator.py
lines 106-122): coerce a present field to float, resetting to `None` when
the coercion raises (caught). -/
def coerce_numeric_field (d : List (String × PyVal)) (f : String) :
    List (String × PyVal) :=
  match dictGet d f with
  | some v =>
      match pyFloatCoerce v with
      | some q => dictSet d f (PyVal.float q)
      | Option.none => dictSet d f PyVal.none
  | Option.none => d

/-- The whole numeric-field loop. -/
def clean_numeric_fields (d : List (String × PyVal)) : List (String × PyVal) :=
  NUMERIC_FIELDS.foldl coerce_numeric_field d

/-- Event-count validation (data_validator.py lines 124-131): coerce to int
(0 when the coercion raises), clamp negatives to 0. -/
def clean_event_count (d : List (String × PyVal)) : List (String × PyVal) :=
  match dictGet d "event_count" with
  | some v =>
      let n : Int :=
        match pyIntCoerce v with
        | some m => if m < 0 then 0 else m
        | Option.none => 0
      dictSet d "event_count" (PyVal.int n)
  | Option.none => d

/-- The four valid classifications, data_validator.py line 134. -/
def VALID_HEALTH_STATES : List String := ["ok", "late", "stale", "unknown"]

/-- Health-state validation (data_validator.py lines 133-142): a present
`last_health` that is not one of the four valid strings (in particular any
non-string) is reset to `"unknown"`. -/
def clean_last_health (d : List (String × PyVal)) : List (String × PyVal) :=
  match dictGet d "last_health" with
  | some (PyVal.str s) =>
      if s ∈ VALID_HEALTH_STATES then d
      else dictSet d "last_health" (PyVal.str "unknown")
  | some _ => dictSet d "last_health" (PyVal.str "unknown")
  | Option.none => d

/-- Technical-context validation (data_validator.py lines 144-153): ensure
the key exists and maps to a dict. -/
def clean_technical_context (d : List (String × PyVal)) : List (String × PyVal) :=
  match dictGet d "technical_context" with
  | some (PyVal.dict _) => d
  | some _ => dictSet d "technical_context" (PyVal.dict [])
  | Option.none => dictSet d "technical_context" (PyVal.dict [])

/-- Per-entity validation (the body of the `for entity_id, state in ...` loop,
data_validator.py lines 66-155): skip non-dict states and states missing a
required field (`Option.none`), otherwise apply the cleaning steps in source
order. -/
def clean_entity_state (now : ℚ) (v : PyVal) : Except PyErr (Option PyVal) :=
  match v with
  | PyVal.dict d =>
      if dictHas d "last_event" && dictHas d "event_count" then
        match clean_history now d with
        | Except.error err => Except.error err
        | Except.ok d1 =>
            Except.ok (some (PyVal.dict (clean_technical_context
              (clean_last_health (clean_event_count (clean_numeric_fields d1))))))
      else Except.ok Option.none
  | _ => Except.ok Option.none

/-- Sort key of data_validator.py line 54: `x[1].get("last_event", 0)`;
`.get` on a non-dict raises AttributeError. -/
def sortKeyOf (kv : String × PyVal) : Except PyErr ((String × PyVal) × PyVal) :=
  match kv.2 with
  | PyVal.dict d => Except.ok (kv, (dictGet d "last_event").getD (PyVal.int 0))
  | _ => Except.error PyErr.attributeError

/-- Map a fallible function over a list. -/
def mapME (f : (String × PyVal) → Except PyErr ((String × PyVal) × PyVal)) :
    List (String × PyVal) → Except PyErr (List ((String × PyVal) × PyVal))
  | [] => Except.ok []
  | x :: rest =>
      match f x with
      | Except.error err => Except.error err
      | Except.ok y =>
          match mapME f rest with
          | Except.error err => Except.error err
          | Except.ok ys => Except.ok (y :: ys)

/-- Insert a keyed entry into a descending-sorted keyed list, keeping
already-placed entries with an equal key in front (stability). -/
def insertByKeyDesc (x : (String × PyVal) × PyVal) :
    List ((String × PyVal) × PyVal) → Except PyErr (List ((String × PyVal) × PyVal))
  | [] => Except.ok [x]
  | y :: rest =>
      match pyLt y.2 x.2 with
      | Except.error err => Except.error err
      | Except.ok true => Except.ok (x :: y :: rest)
      | Except.ok false =>
          match insertByKeyDesc x rest with
          | Except.error err => Except.error err
          | Except.ok rest2 => Except.ok (y :: rest2)

/-- Stable insertion sort over the keyed entries. -/
def insertionSortDesc (acc : List ((String × PyVal) × PyVal)) :
    List ((String × PyVal) × PyVal) → Except PyErr (List ((String × PyVal) × PyVal))
  | [] => Except.ok acc
  | x :: rest =>
      match insertByKeyDesc x acc with
      | Except.error err => Except.error err
      | Except.ok acc2 => insertionSortDesc acc2 rest

/-- The oversize sort of data_validator.py lines 52-56:
`sorted(items, key=lambda x: x[1].get("last_event", 0), reverse=True)`.
Python's Timsort is modelled by a stable insertion sort; which pair of
incomparable keys raises first may differ from CPython, but no claim depends
on the result or the error of this branch. -/
def sortByLastEventDesc (entries : List (String × PyVal)) :
    Except PyErr (List (String × PyVal)) :=
  match mapME sortKeyOf entries with
  | Except.error err => Except.error err
  | Except.ok keyed =>
      match insertionSortDesc [] keyed with
      | Except.error err => Except.error err
      | Except.ok sorted => Except.ok (sorted.map (fun z => z.1))

/-- The size-limit branch of data_validator.py lines 44-60. -/
def prune_oversize (entries : List (String × PyVal)) :
    Except PyErr (List (String × PyVal) × List String) :=
  if entries.length > MAX_LEARNING_STATE_SIZE then
    match sortByLastEventDesc entries with
    | Except.error err => Except.error err
    | Except.ok sorted =>
        Except.ok (sorted.take MAX_LEARNING_STATE_SIZE,
          ["Pruned " ++ toString (entries.length - MAX_LEARNING_STATE_SIZE) ++
            " oldest entities"])
  else Except.ok (entries, [])

/-- The per-entity loop of data_validator.py lines 66-155, accumulating
`cleaned_state[entity_id] = state`. -/
def cleanEntitiesLoop (now : ℚ) (acc : List (String × PyVal)) :
    List (String × PyVal) → Except PyErr (List (String × PyVal))
  | [] => Except.ok acc
  | kv :: rest =>
      match clean_entity_state now kv.2 with
      | Except.error err => Except.error err
      | Except.ok Option.none => cleanEntitiesLoop now acc rest
      | Except.ok (some w) => cleanEntitiesLoop now (dictSet acc kv.1 w) rest

/-- The final message (data_validator.py lines 157-159). -/
def validateMessage (issues : List String) : String :=
  if issues.isEmpty then "Learning state validated"
  else "Learning state validated: " ++ String.intercalate ", " issues

/-- `DataValidator.validate_learning_state` (data_validator.py lines 23-167),
with `now` the value `time.time()` returns during the call.  The result
triple is `(is_valid, message, cleaned_state)`; `Except.error` marks an
uncaught Python exception escaping the function. -/
def validate_learning_state (now : ℚ) (v : PyVal) :
    Except PyErr (Bool × String × PyVal) :=
  match v with
  | PyVal.dict entries =>
      match prune_oversize entries with
      | Except.error err => Except.error err
      | Except.ok (entries2, issues) =>
          match cleanEntitiesLoop now [] entries2 with
          | Except.error err => Except.error err
          | Except.ok cleaned =>
              Except.ok (true, validateMessage issues, PyVal.dict cleaned)
  | _ => Except.ok (false, "learning_state must be a dictionary", PyVal.dict [])

/-- A store with one entity whose history contains an event with a string
timestamp.  Python's `event.get("timestamp", 0) > (now - max_age_seconds)`
then raises `TypeError` inside the list comprehension, which nothing in
`validate_learning_state` catches. -/
def c8_failing_input : PyVal :=
  PyVal.dict [("sensor.x", PyVal.dict
    [("last_event", PyVal.int 0),
     ("event_count", PyVal.int 0),
     ("history", PyVal.list [PyVal.dict [("timestamp", PyVal.str "bad")]])])]

/-- A small well-formed store used to witness validator idempotence. -/
def c9_input_example : PyVal :=
  PyVal.dict [("sensor.a", PyVal.dict
    [("last_event", PyVal.int 5), ("event_count", PyVal.int 2)])]

/-- The cleaned output the validator produces from `c9_input_example`:
`last_event` coerced to float, `technical_context` added. -/
def c9_cleaned_example : PyVal :=
  PyVal.dict [("sensor.a", PyVal.dict
    [("last_event", PyVal.float 5), ("event_count", PyVal.int 2),
     ("technical_context", PyVal.dict [])])]

/-! ## Theorems -/

/-- C1 (counterexample): processing the first observed event of an untracked
entity does NOT leave the learned fields null and does append to history:
the record is created with `last_event = now`, so the guard
`if entity_state["last_event"] is not None` is taken with interval 0. -/
theorem first_event_counterexample :
    (async_update_entity_learning Option.none 100 "on" (5 / 2)).interval_ewma ≠ Option.none ∧
    (async_update_entity_learning Option.none 100 "on" (5 / 2)).threshold ≠ Option.none ∧
    (async_update_entity_learning Option.none 100 "on" (5 / 2)).history ≠ [] := by
  refine ⟨?_, ?_, ?_⟩ <;>
    simp [async_update_entity_learning, update_learning_fields,
      initial_entity_state, ewma_next, evaluate_health]

/-- C1 (amended): the first observed event creates the record with
`last_event` equal to the event timestamp and `last_health = unknown`, but
learning still runs with interval 0: `interval_ewma` and `threshold` are set
to 0 (not left null), one history entry with interval 0 is appended, and
`event_count` becomes 1. -/
theorem first_event_baseline (now : ℚ) (raw : String) (mult : ℚ) :
    (async_update_entity_learning Option.none now raw mult).last_event = some now ∧
    (async_update_entity_learning Option.none now raw mult).last_health = Health.unknown ∧
    (async_update_entity_learning Option.none now raw mult).event_count = 1 ∧
    (async_update_entity_learning Option.none now raw mult).interval_ewma = some 0 ∧
    (async_update_entity_learning Option.none now raw mult).threshold = some 0 ∧
    (async_update_entity_learning Option.none now raw mult).history = [⟨now, 0, raw⟩] := by
  refine ⟨?_, ?_, ?_, ?_, ?_, ?_⟩ <;>
    simp [async_update_entity_learning, update_learning_fields,
      initial_entity_state, ewma_next, evaluate_health]

/-- C2: the classification of `_evaluate_health`, for a record whose
`last_event` is set: fewer than 2 events, a null threshold or a
non-positive threshold give `unknown`; otherwise with elapsed
`now - le` the result is `ok` below `1.1 × threshold`, `late` from
`1.1 × threshold` (inclusive) up to `2 × threshold` (exclusive), `stale`
from `2 × threshold` on, including the four boundary instances
`1.09×T → ok`, `1.1×T → late`, `1.99×T → late`, `2.0×T → stale`. -/
theorem evaluate_health_classification (st : EntityState) (now le : ℚ)
    (hle : st.last_event = some le) :
    (st.event_count < 2 → evaluate_health st now = Health.unknown) ∧
    (st.threshold = Option.none → evaluate_health st now = Health.unknown) ∧
    (∀ T, st.threshold = some T → T ≤ 0 → evaluate_health st now = Health.unknown) ∧
    (∀ T, st.threshold = some T → 0 < T → 2 ≤ st.event_count →
      ((evaluate_health st now = Health.ok ↔ now - le < T * (11 / 10)) ∧
       (evaluate_health st now = Health.late ↔
         (T * (11 / 10) ≤ now - le ∧ now - le < T * 2)) ∧
       (evaluate_health st now = Health.stale ↔ T * 2 ≤ now - le) ∧
       (now - le = T * (109 / 100) → evaluate_health st now = Health.ok) ∧
       (now - le = T * (11 / 10) → evaluate_health st now = Health.late) ∧
       (now - le = T * (199 / 100) → evaluate_health st now = Health.late) ∧
       (now - le = T * 2 → evaluate_health st now = Health.stale))) := by
  refine ⟨?_, ?_, ?_, ?_⟩
  · intro h; simp [evaluate_health, h]
  · intro h
    by_cases hc : st.event_count < 2 <;> simp [evaluate_health, hc, h]
  · intro T hT hT0
    by_cases hc : st.event_count < 2 <;> simp [evaluate_health, hc, hT, hT0]
  · intro T hT hT0 hcount
    have hc : ¬ st.event_count < 2 := by omega
    simp only [evaluate_health, hle, Option.getD_some, hT, if_neg hc]
    by_cases h1 : now - le < T * (11 / 10)
    · simp only [if_neg (not_le.mpr hT0), if_pos h1]
      refine ⟨iff_of_true trivial h1, iff_of_false (by simp) ?_, iff_of_false (by simp) ?_,
        fun _ => trivial, ?_, ?_, ?_⟩
      · rintro ⟨ha, -⟩; linarith
      · intro hx; linarith
      · intro hx; rw [hx] at h1; linarith
      · intro hx; rw [hx] at h1; exfalso; linarith
      · intro hx; rw [hx] at h1; exfalso; linarith
    · by_cases h2 : now - le < T * 2
      · simp only [if_neg (not_le.mpr hT0), if_neg h1, if_pos h2]
        refine ⟨iff_of_false (by simp) h1, iff_of_true trivial ⟨not_lt.mp h1, h2⟩,
          iff_of_false (by simp) (not_le.mpr h2), ?_, fun _ => trivial, fun _ => trivial, ?_⟩
        · intro hx; exfalso; rw [hx] at h1; exact h1 (by linarith)
        · intro hx; rw [hx] at h2; linarith
      · simp only [if_neg (not_le.mpr hT0), if_neg h1, if_neg h2]
        refine ⟨iff_of_false (by simp) h1, iff_of_false (by simp) ?_,
          iff_of_true trivial (not_lt.mp h2), ?_, ?_, ?_, fun _ => trivial⟩
        · rintro ⟨-, hb⟩; exact h2 hb
        · intro hx; exfalso; rw [hx] at h1; exact h1 (by linarith)
        · intro hx; exfalso; rw [hx] at h2; exact h2 (by linarith)
        · intro hx; exfalso; rw [hx] at h2; exact h2 (by linarith)

/-- C2 (witness): a record with threshold 100, two events and last event at
time 0 classifies as `late` at time 150. -/
theorem evaluate_health_classification_witness :
    evaluate_health ⟨some 0, some 40, 0, 2, some 100, Health.unknown, []⟩ 150 = Health.late :=
  ((evaluate_health_classification ⟨some 0, some 40, 0, 2, some 100, Health.unknown, []⟩
      150 0 rfl).2.2.2 100 rfl (by norm_num) (by norm_num)).2.1.mpr (by norm_num)

/-- C3 (counterexample): the very first observed event sets a non-null
threshold equal to 0, which is not strictly positive. -/
theorem threshold_positive_counterexample :
    (async_update_entity_learning Option.none 50 "on" 5).threshold = some 0 ∧
    ¬ (∀ t, (async_update_entity_learning Option.none 50 "on" 5).threshold = some t →
        0 < t) := by
  have h : (async_update_entity_learning Option.none 50 "on" 5).threshold = some 0 := by
    simp [async_update_entity_learning, update_learning_fields,
      initial_entity_state, ewma_next, evaluate_health]
  exact ⟨h, fun hall => absurd (hall 0 h) (lt_irrefl 0)⟩

/-- C3 (amended): whenever a learning update runs (the stored or freshly
created record has a non-null `last_event`, which holds in particular for
every record the update path itself creates), the resulting threshold is
exactly `interval_ewma × multiplier` for the multiplier fetched at that
update; it need not be strictly positive. -/
theorem threshold_eq_ewma_mul_multiplier (prev : Option EntityState) (now : ℚ)
    (raw : String) (mult : ℚ) (le : ℚ)
    (h : (match prev with
      | Option.none => initial_entity_state now
      | some st => st).last_event = some le) :
    ∃ e, (async_update_entity_learning prev now raw mult).interval_ewma = some e ∧
      (async_update_entity_learning prev now raw mult).threshold = some (e * mult) := by
  cases prev with
  | none =>
      exact ⟨0, by
        refine ⟨?_, ?_⟩ <;>
          simp [async_update_entity_learning, update_learning_fields,
            initial_entity_state, ewma_next, evaluate_health]⟩
  | some st =>
      have h' : st.last_event = some le := h
      refine ⟨ewma_next st.interval_ewma (now - le), ?_, ?_⟩ <;>
        simp [async_update_entity_learning, update_learning_fields, h',
          evaluate_health]

/-- C3 (witness): instantiating the threshold-scaling theorem at a concrete
record with `last_event = 10`, event at time 70, multiplier 4. -/
theorem threshold_eq_ewma_mul_multiplier_witness :
    ∃ e, (async_update_entity_learning
        (some ⟨some 10, some 30, 0, 3, some 75, Health.ok, []⟩) 70 "on" 4).interval_ewma =
          some e ∧
      (async_update_entity_learning
        (some ⟨some 10, some 30, 0, 3, some 75, Health.ok, []⟩) 70 "on" 4).threshold =
          some (e * 4) :=
  threshold_eq_ewma_mul_multiplier
    (some ⟨some 10, some 30, 0, 3, some 75, Health.ok, []⟩) 70 "on" 4 10 rfl

/-- C4 (counterexample): after ten events spaced exactly 60 seconds apart
the EWMA is `60 × (1 - 0.7⁹) ≈ 57.579`, not within `1e-3` of 60: the first
event seeded the EWMA with interval 0. -/
theorem scenario_ewma_counterexample :
    scenario_record.interval_ewma = some scenario_ewma ∧
    ¬ |scenario_ewma - 60| ≤ 1 / 1000 := by
  constructor
  · norm_num [scenario_record, scenario_times, async_update_entity_learning,
      update_learning_fields, initial_entity_state, ewma_next, evaluate_health,
      alpha, scenario_ewma]
  · rw [abs_le]
    intro hx
    have := hx.1
    norm_num [scenario_ewma] at this

/-- C4 (amended): in the constant-cadence scenario (ten events 60 seconds
apart, `α = 0.3`, multiplier 2.5) the code produces
`interval_ewma = 60 × (1 - 0.7⁹) ≈ 57.579` (within 2.43 of 60, not within
`1e-3`, because the first event seeds the EWMA with interval 0) and
`threshold = interval_ewma × 2.5 ≈ 143.947`; with no further event the
classification at elapsed 170 s is `late` and at elapsed 310 s is `stale`,
as the original claim states. -/
theorem scenario_exact :
    scenario_record.interval_ewma = some scenario_ewma ∧
    scenario_record.threshold = some (scenario_ewma * (5 / 2)) ∧
    |scenario_ewma - 60| ≤ 243 / 100 ∧
    evaluate_health scenario_record (540 + 170) = Health.late ∧
    evaluate_health scenario_record (540 + 310) = Health.stale := by
  refine ⟨?_, ?_, ?_, ?_, ?_⟩
  · norm_num [scenario_record, scenario_times, async_update_entity_learning,
      update_learning_fields, initial_entity_state, ewma_next, evaluate_health,
      alpha, scenario_ewma]
  · norm_num [scenario_record, scenario_times, async_update_entity_learning,
      update_learning_fields, initial_entity_state, ewma_next, evaluate_health,
      alpha, scenario_ewma]
  · rw [abs_le]; constructor <;> norm_num [scenario_ewma]
  · norm_num [scenario_record, scenario_times, async_update_entity_learning,
      update_learning_fields, initial_entity_state, ewma_next, evaluate_health,
      alpha]
  · norm_num [scenario_record, scenario_times, async_update_entity_learning,
      update_learning_fields, initial_entity_state, ewma_next, evaluate_health,
      alpha]

/-- C5 (counterexample): with a stored last event at time 100, an event at
time 40 is processed with raw interval -60: the history entry records -60
and the EWMA becomes -18 < 0 — the interval is not clamped to 0 and
`interval_ewma` does become negative. -/
theorem negative_interval_counterexample :
    clock_anomaly_record.history = [⟨100, 0, "on"⟩, ⟨40, -60, "on"⟩] ∧
    clock_anomaly_record.interval_ewma = some (-18) ∧
    ((-18 : ℚ) < 0) := by
  refine ⟨?_, ?_, by norm_num⟩ <;>
    norm_num [clock_anomaly_record, async_update_entity_learning,
      update_learning_fields, initial_entity_state, ewma_next, evaluate_health,
      alpha]

/-- C5 (amended): an observation whose raw inter-event difference is
negative is still processed (the event count increments, `last_event`
advances, a history entry is appended), but the negative interval is fed to
the EWMA unclamped; `interval_ewma` can therefore become negative. -/
theorem negative_interval_processed (st : EntityState) (le now : ℚ)
    (raw : String) (mult : ℚ)
    (hle : st.last_event = some le) (hneg : now < le)
    (hh : st.history.length < 100) :
    (async_update_entity_learning (some st) now raw mult).event_count =
      st.event_count + 1 ∧
    (async_update_entity_learning (some st) now raw mult).last_event = some now ∧
    (async_update_entity_learning (some st) now raw mult).history =
      st.history ++ [⟨now, now - le, raw⟩] ∧
    (async_update_entity_learning (some st) now raw mult).interval_ewma =
      some (ewma_next st.interval_ewma (now - le)) ∧
    now - le < 0 := by
  have hlen : ¬ 100 < st.history.length + 1 := by omega
  refine ⟨?_, ?_, ?_, ?_, by linarith⟩ <;>
    simp [async_update_entity_learning, update_learning_fields, hle,
      evaluate_health, hlen]

/-- C5 (witness): the amended theorem applied to a record with
`last_event = 100` and an event at time 40. -/
theorem negative_interval_processed_witness :
    (async_update_entity_learning
        (some ⟨some 100, some 0, 0, 1, some 0, Health.unknown, [⟨100, 0, "on"⟩]⟩)
        40 "on" (5 / 2)).event_count = 2 ∧
    (async_update_entity_learning
        (some ⟨some 100, some 0, 0, 1, some 0, Health.unknown, [⟨100, 0, "on"⟩]⟩)
        40 "on" (5 / 2)).last_event = some 40 ∧
    (async_update_entity_learning
        (some ⟨some 100, some 0, 0, 1, some 0, Health.unknown, [⟨100, 0, "on"⟩]⟩)
        40 "on" (5 / 2)).history = [⟨100, 0, "on"⟩] ++ [⟨40, 40 - 100, "on"⟩] ∧
    (async_update_entity_learning
        (some ⟨some 100, some 0, 0, 1, some 0, Health.unknown, [⟨100, 0, "on"⟩]⟩)
        40 "on" (5 / 2)).interval_ewma = some (ewma_next (some 0) (40 - 100)) ∧
    (40 : ℚ) - 100 < 0 :=
  negative_interval_processed
    ⟨some 100, some 0, 0, 1, some 0, Health.unknown, [⟨100, 0, "on"⟩]⟩
    100 40 "on" (5 / 2) rfl (by norm_num) (by norm_num)

/-- Classification of a record whose `last_event` equals the evaluation
time: elapsed time is 0, so the result is `ok` exactly when at least two
events were seen and the threshold is a positive number, `unknown`
otherwise. -/
theorem evaluate_health_at_event_time (st : EntityState) (now : ℚ)
    (h : st.last_event = some now) :
    evaluate_health st now =
      if 2 ≤ st.event_count ∧ 0 < st.threshold.getD 0 then Health.ok
      else Health.unknown := by
  rcases Nat.lt_or_ge st.event_count 2 with hc | hc
  · have : ¬ (2 ≤ st.event_count ∧ 0 < st.threshold.getD 0) := by
      rintro ⟨h2, -⟩; omega
    simp [evaluate_health, hc, this]
  · have hc' : ¬ st.event_count < 2 := by omega
    cases hT : st.threshold with
    | none => simp [evaluate_health, hc', hT, h, hc]
    | some t =>
        by_cases ht : t ≤ 0
        · have hcond : ¬ (2 ≤ st.event_count ∧ 0 < t) := by
            rintro ⟨-, hpos⟩; linarith
          simp [evaluate_health, hc', hT, h, ht, hcond]
        · have h0 : (0 : ℚ) < t := not_le.mp ht
          have hlt : now - now < t * (11 / 10) := by
            rw [sub_self]; positivity
          simp [evaluate_health, hc', hT, h, ht, hlt, hc, h0]

/-- The priority-save boolean is false whenever the new health is neither
`late` nor `stale`. -/
theorem priority_bool_false (x y : Health)
    (h1 : x ≠ Health.late) (h2 : x ≠ Health.stale) :
    (decide (y ≠ x) && (decide (x = Health.stale) || decide (x = Health.late))) = false := by
  cases x <;> simp_all

/-- C10: immediately after an observation is processed the stored
`last_health` is `ok` exactly when the updated record has at least two
events and a positive threshold, and `unknown` otherwise; it is never
`late` or `stale`, so the priority-save branch of the event handler never
fires. -/
theorem post_update_never_late_or_stale (prev : Option EntityState) (now : ℚ)
    (raw : String) (mult : ℚ) :
    ((async_update_entity_learning prev now raw mult).last_health = Health.ok ↔
      2 ≤ (async_update_entity_learning prev now raw mult).event_count ∧
        0 < ((async_update_entity_learning prev now raw mult).threshold).getD 0) ∧
    ((async_update_entity_learning prev now raw mult).last_health = Health.ok ∨
      (async_update_entity_learning prev now raw mult).last_health = Health.unknown) ∧
    (async_update_entity_learning prev now raw mult).last_health ≠ Health.late ∧
    (async_update_entity_learning prev now raw mult).last_health ≠ Health.stale ∧
    update_triggers_priority_save prev now raw mult = false := by
  have base : ∀ s : EntityState, s.last_event = some now →
      (evaluate_health s now = Health.ok ↔
        2 ≤ s.event_count ∧ 0 < s.threshold.getD 0) ∧
      (evaluate_health s now = Health.ok ∨ evaluate_health s now = Health.unknown) ∧
      evaluate_health s now ≠ Health.late ∧ evaluate_health s now ≠ Health.stale := by
    intro s hs
    rw [evaluate_health_at_event_time s now hs]
    by_cases hcond : 2 ≤ s.event_count ∧ 0 < s.threshold.getD 0
    · simp [hcond]
    · simp [hcond]
  obtain ⟨mid, hmid⟩ : ∃ m, update_learning_fields (match prev with
      | Option.none => initial_entity_state now
      | some st => st) now raw mult = m := ⟨_, rfl⟩
  simp only [async_update_entity_learning, update_triggers_priority_save, hmid]
  rcases base { mid with last_event := some now, event_count := mid.event_count + 1 }
      rfl with ⟨b1, b2, b3, b4⟩
  exact ⟨b1, b2, b3, b4, priority_bool_false _ _ b3 b4⟩

/-- Auxiliary induction for the debounce machine: while consecutive
non-priority calls arrive within the debounce window of the pending timer,
the pending save keeps being cancelled and re-armed, so the only flush is
the one armed by the last call. -/
theorem debounce_flushes_pending (rest : List ℚ) :
    ∀ t tl : ℚ,
      List.Chain' (fun a b => a ≤ b ∧ b - a < SAVE_DEBOUNCE_SECONDS) (t :: (rest ++ [tl])) →
      debounce_flushes (some (t + SAVE_DEBOUNCE_SECONDS))
        ((rest ++ [tl]).map (fun u => (u, false))) = [tl + SAVE_DEBOUNCE_SECONDS] := by
  induction rest with
  | nil =>
      intro t tl hchain
      rcases (List.chain'_cons.mp hchain).1 with ⟨-, hgap⟩
      have hnot : ¬ (t + SAVE_DEBOUNCE_SECONDS < tl) := by
        intro hx; linarith
      simp [debounce_flushes, hnot, save_delay]
  | cons u rest ih =>
      intro t tl hchain
      rcases List.chain'_cons.mp hchain with ⟨⟨-, hgap⟩, htail⟩
      have hnot : ¬ (t + SAVE_DEBOUNCE_SECONDS < u) := by
        intro hx; linarith
      simpa [debounce_flushes, hnot, save_delay] using ih u tl htail

/-- C7: a burst of `N ≥ 1` non-priority `schedule_save` calls, each arriving
within the 30-second debounce window of its predecessor, produces exactly
one flush, exactly `SAVE_DEBOUNCE_SECONDS` after the last call (in
particular at least the debounce delay after it): trailing-edge debounce. -/
theorem debounce_coalesces (ts : List ℚ) (tl : ℚ)
    (hchain : List.Chain' (fun a b => a ≤ b ∧ b - a < SAVE_DEBOUNCE_SECONDS) (ts ++ [tl])) :
    debounce_flushes Option.none ((ts ++ [tl]).map (fun u => (u, false))) =
      [tl + SAVE_DEBOUNCE_SECONDS] ∧
    SAVE_DEBOUNCE_SECONDS ≤ (tl + SAVE_DEBOUNCE_SECONDS) - tl := by
  refine ⟨?_, by norm_num⟩
  cases ts with
  | nil => simp [debounce_flushes, save_delay]
  | cons t ts' =>
      have h1 : debounce_flushes Option.none (((t :: ts') ++ [tl]).map (fun u => (u, false))) =
          debounce_flushes (some (t + SAVE_DEBOUNCE_SECONDS))
            ((ts' ++ [tl]).map (fun u => (u, false))) := by
        simp [debounce_flushes, save_delay]
      rw [h1]
      exact debounce_flushes_pending ts' t tl hchain

/-- C7 (witness): three calls at times 0, 10 and 20 produce the single
flush at time 50. -/
theorem debounce_coalesces_witness :
    debounce_flushes Option.none (([(0 : ℚ), 10] ++ [20]).map (fun u => (u, false))) =
      [20 + SAVE_DEBOUNCE_SECONDS] ∧
    SAVE_DEBOUNCE_SECONDS ≤ ((20 : ℚ) + SAVE_DEBOUNCE_SECONDS) - 20 :=
  debounce_coalesces [0, 10] 20
    (by norm_num [List.chain'_cons, SAVE_DEBOUNCE_SECONDS])

/-- C6 (counterexample): with a last flush at time 10 and periodic ticks at
times 300 and 600 (the timer is anchored at setup time 0, independently of
flush times), a change at time 11 is flushed only at time 600: the tick at
300 finds `elapsed = 290 < 300` and skips.  No flush happens within
`SAVE_MAX_WAIT_SECONDS = 300` seconds of the change at 11. -/
theorem backstop_not_within_M_counterexample :
    (backstop_run ⟨10, false⟩
      [(11, PEvent.change), (300, PEvent.tick), (600, PEvent.tick)]).2 = [600] ∧
    ¬ ((600 : ℚ) ≤ 11 + SAVE_MAX_WAIT_SECONDS) := by
  constructor
  · norm_num [backstop_run, backstop_step, SAVE_MAX_WAIT_SECONDS]
  · norm_num [SAVE_MAX_WAIT_SECONDS]

/-- Every flush time produced by the backstop machine is the time of one of
the processed events. -/
theorem backstop_flush_times (tr : List (ℚ × PEvent)) :
    ∀ st : BackstopState, ∀ f ∈ (backstop_run st tr).2, ∃ e ∈ tr, f = e.1 := by
  induction tr with
  | nil => intro st f hf; simp [backstop_run] at hf
  | cons e rest ih =>
      intro st f hf
      obtain ⟨t, ev⟩ := e
      cases ev with
      | change =>
          simp only [backstop_run, backstop_step] at hf
          rcases ih _ f hf with ⟨e2, he2, rfl⟩
          exact ⟨e2, List.mem_cons_of_mem _ he2, rfl⟩
      | tick =>
          by_cases hcond : (st.changed = true) ∧ SAVE_MAX_WAIT_SECONDS ≤ t - st.lastSave
          · simp only [backstop_run, backstop_step, if_pos hcond] at hf
            rcases List.mem_cons.mp hf with rfl | hf
            · exact ⟨(f, PEvent.tick), List.mem_cons_self _ _, rfl⟩
            · rcases ih _ f hf with ⟨e2, he2, rfl⟩
              exact ⟨e2, List.mem_cons_of_mem _ he2, rfl⟩
          · simp only [backstop_run, backstop_step, if_neg hcond] at hf
            rcases ih _ f hf with ⟨e2, he2, rfl⟩
            exact ⟨e2, List.mem_cons_of_mem _ he2, rfl⟩

/-- As long as no flush happens, the machine stays in a state with the
change still pending; a tick later than `lastSave + SAVE_MAX_WAIT_SECONDS`
then necessarily flushes. -/
theorem backstop_flushes_of_late_tick (c : ℚ) (tr : List (ℚ × PEvent)) :
    ∀ s T : ℚ, s ≤ c → (T, PEvent.tick) ∈ tr →
      c + SAVE_MAX_WAIT_SECONDS < T →
      (backstop_run ⟨s, true⟩ tr).2 ≠ [] := by
  induction tr with
  | nil => intro s T _ hT _; simp at hT
  | cons e rest ih =>
      intro s T hs hT hTc
      obtain ⟨t, ev⟩ := e
      cases ev with
      | change =>
          have hT2 : (T, PEvent.tick) ∈ rest := by
            rcases List.mem_cons.mp hT with heq | h2
            · exact absurd (congrArg Prod.snd heq) (by simp)
            · exact h2
          simpa only [backstop_run, backstop_step] using ih s T hs hT2 hTc
      | tick =>
          by_cases hc2 : SAVE_MAX_WAIT_SECONDS ≤ t - s
          · simp [backstop_run, backstop_step, hc2]
          · have hT2 : (T, PEvent.tick) ∈ rest := by
              rcases List.mem_cons.mp hT with heq | h2
              · exfalso
                have ht : T = t := congrArg Prod.fst heq
                exact hc2 (by rw [← ht]; linarith)
              · exact h2
            simpa [backstop_run, backstop_step, hc2] using ih s T hs hT2 hTc

/-- C6 (amended): with a pending unflushed change at time `c` (last flush at
`s ≤ c`) and the debounce path never flushing, a flush still occurs within
`2 × SAVE_MAX_WAIT_SECONDS = 600` seconds of the change — not within 300 —
because the unconditional tick at some `T` with `c + 300 < T ≤ c + 600`
(which the 300-second periodic timer always provides) finds
`elapsed = T - s > 300` and forces the flush.  All flush times of such a
window fall in `[c, c + 600]`. -/
theorem backstop_flush_within_2M (s c : ℚ) (tr : List (ℚ × PEvent)) (T : ℚ)
    (hs : s ≤ c)
    (hw : ∀ e ∈ tr, c ≤ e.1 ∧ e.1 ≤ c + 2 * SAVE_MAX_WAIT_SECONDS)
    (hT : (T, PEvent.tick) ∈ tr)
    (hTc : c + SAVE_MAX_WAIT_SECONDS < T) :
    (backstop_run ⟨s, true⟩ tr).2 ≠ [] ∧
    ∀ f ∈ (backstop_run ⟨s, true⟩ tr).2,
      c ≤ f ∧ f ≤ c + 2 * SAVE_MAX_WAIT_SECONDS := by
  refine ⟨backstop_flushes_of_late_tick c tr s T hs hT hTc, ?_⟩
  intro f hf
  rcases backstop_flush_times tr ⟨s, true⟩ f hf with ⟨e2, he2, rfl⟩
  exact hw e2 he2

/-- C6 (witness): the amended bound applied to a last flush at time 0, a
change at time 0 and a single tick at time 301. -/
theorem backstop_flush_within_2M_witness :
    (backstop_run ⟨0, true⟩ [((301 : ℚ), PEvent.tick)]).2 ≠ [] ∧
    ∀ f ∈ (backstop_run ⟨0, true⟩ [((301 : ℚ), PEvent.tick)]).2,
      (0 : ℚ) ≤ f ∧ f ≤ 0 + 2 * SAVE_MAX_WAIT_SECONDS :=
  backstop_flush_within_2M 0 0 [(301, PEvent.tick)] 301 le_rfl
    (by intro e he
        rcases List.mem_singleton.mp he with rfl
        norm_num [SAVE_MAX_WAIT_SECONDS])
    (List.mem_singleton.mpr rfl)
    (by norm_num [SAVE_MAX_WAIT_SECONDS])

/-- C8: evaluating the validator at a store holding a history event whose
timestamp is the string "bad" reproduces the uncaught TypeError raised by
`event.get("timestamp", 0) > (now - max_age_seconds)` — the function does
not return a cleaned result on this malformed input. -/
theorem validate_raises_on_string_timestamp :
    validate_learning_state 1000000 c8_failing_input = Except.error PyErr.typeError := rfl

/-- Reading a key after a write: the written key returns the new value,
every other key is untouched. -/
theorem dictGet_dictSet (d : List (String × PyVal)) (k : String) (v : PyVal)
    (k2 : String) :
    dictGet (dictSet d k v) k2 = if k = k2 then some v else dictGet d k2 := by
  induction d with
  | nil => simp [dictSet, dictGet]
  | cons kv rest ih =>
      obtain ⟨k1, v1⟩ := kv
      by_cases h1 : k1 = k
      · subst h1
        by_cases h2 : k1 = k2 <;> simp [dictSet, dictGet, h2]
      · by_cases h2 : k1 = k2
        · subst h2
          have : ¬ k = k1 := fun hx => h1 hx.symm
          simp [dictSet, dictGet, h1, this]
        · simp [dictSet, dictGet, h1, h2, ih]

/-- Writing back the value a key already holds leaves the dict unchanged. -/
theorem dictSet_eq_self (d : List (String × PyVal)) (k : String) (v : PyVal)
    (h : dictGet d k = some v) : dictSet d k v = d := by
  induction d with
  | nil => simp [dictGet] at h
  | cons kv rest ih =>
      obtain ⟨k1, v1⟩ := kv
      by_cases h1 : k1 = k
      · subst h1
        simp [dictGet] at h
        simp [dictSet, h]
      · simp [dictGet, h1] at h
        simp [dictSet, h1, ih h]

/-- Writing an absent key appends it at the end (Python dict insertion
order). -/
theorem dictSet_of_not_has (d : List (String × PyVal)) (k : String) (v : PyVal)
    (h : dictGet d k = Option.none) : dictSet d k v = d ++ [(k, v)] := by
  induction d with
  | nil => simp [dictSet]
  | cons kv rest ih =>
      obtain ⟨k1, v1⟩ := kv
      by_cases h1 : k1 = k
      · subst h1; simp [dictGet] at h
      · simp [dictGet, h1] at h
        simp [dictSet, h1, ih h]

/-- A write grows the dict by at most one entry. -/
theorem dictSet_length_le (d : List (String × PyVal)) (k : String) (v : PyVal) :
    (dictSet d k v).length ≤ d.length + 1 := by
  induction d with
  | nil => simp [dictSet]
  | cons kv rest ih =>
      obtain ⟨k1, v1⟩ := kv
      by_cases h1 : k1 = k <;> simp [dictSet, h1]
      omega

/-- Every entry of `dictSet d k v` is an entry of `d` or the written pair. -/
theorem mem_dictSet (d : List (String × PyVal)) (k : String) (v : PyVal)
    (x : String × PyVal) (h : x ∈ dictSet d k v) : x ∈ d ∨ x = (k, v) := by
  induction d with
  | nil => simp [dictSet] at h; exact Or.inr h
  | cons kv rest ih =>
      obtain ⟨k1, v1⟩ := kv
      by_cases h1 : k1 = k
      · subst h1
        simp [dictSet] at h
        rcases h with rfl | h2
        · exact Or.inr rfl
        · exact Or.inl (List.mem_cons_of_mem _ h2)
      · simp [dictSet, h1] at h
        rcases h with rfl | h2
        · exact Or.inl (List.mem_cons_self _ _)
        · rcases ih h2 with h3 | h3
          · exact Or.inl (List.mem_cons_of_mem _ h3)
          · exact Or.inr h3

/-- A key is absent exactly when it is not among the stored keys. -/
theorem dictGet_eq_none_iff (d : List (String × PyVal)) (k : String) :
    dictGet d k = Option.none ↔ k ∉ d.map Prod.fst := by
  induction d with
  | nil => simp [dictGet]
  | cons kv rest ih =>
      obtain ⟨k1, v1⟩ := kv
      by_cases h1 : k1 = k
      · subst h1; simp [dictGet]
      · rw [List.map_cons, List.mem_cons]
        simp only [dictGet, if_neg h1]
        rw [ih]
        constructor
        · intro hnot hx
          rcases hx with hx | hx
          · exact h1 hx.symm
          · exact hnot hx
        · intro hnot hx
          exact hnot (Or.inr hx)

/-- A write to a present key preserves the key list; to an absent key it
appends the key. -/
theorem keys_dictSet (d : List (String × PyVal)) (k : String) (v : PyVal) :
    (dictSet d k v).map Prod.fst =
      if k ∈ d.map Prod.fst then d.map Prod.fst else d.map Prod.fst ++ [k] := by
  induction d with
  | nil => simp [dictSet]
  | cons kv rest ih =>
      obtain ⟨k1, v1⟩ := kv
      by_cases h1 : k1 = k
      · subst h1; simp [dictSet]
      · have : ¬ k = k1 := fun hx => h1 hx.symm
        by_cases h2 : k ∈ rest.map Prod.fst <;>
          simp [dictSet, h1, this, h2, ih]

/-- Writes preserve key-list uniqueness. -/
theorem nodup_keys_dictSet (d : List (String × PyVal)) (k : String) (v : PyVal)
    (h : (d.map Prod.fst).Nodup) : ((dictSet d k v).map Prod.fst).Nodup := by
  rw [keys_dictSet]
  by_cases h2 : k ∈ d.map Prod.fst
  · simpa [h2]
  · simpa [h2, List.nodup_append] using h

/-- Every element the monadic filter keeps passed its test. -/
theorem filterME_out_true (p : PyVal → Except PyErr Bool) (l out : List PyVal)
    (h : filterME p l = Except.ok out) : ∀ e ∈ out, p e = Except.ok true := by
  induction l generalizing out with
  | nil =>
      simp [filterME] at h
      subst h; intro e he; simp at he
  | cons x rest ih =>
      intro e he
      simp only [filterME] at h
      cases hp : p x with
      | error err => rw [hp] at h; simp at h
      | ok keep =>
          rw [hp] at h
          cases hrest : filterME p rest with
          | error err => rw [hrest] at h; simp at h
          | ok out2 =>
              rw [hrest] at h
              cases keep with
              | true =>
                  simp at h
                  subst h
                  rcases List.mem_cons.mp he with rfl | he2
                  · exact hp
                  · exact ih out2 hrest e he2
              | false =>
                  simp at h
                  subst h
                  exact ih out2 hrest e he

/-- A list whose elements all pass the test filters to itself. -/
theorem filterME_all_true (p : PyVal → Except PyErr Bool) (l : List PyVal)
    (h : ∀ e ∈ l, p e = Except.ok true) : filterME p l = Except.ok l := by
  induction l with
  | nil => rfl
  | cons x rest ih =>
      have hx := h x (List.mem_cons_self _ _)
      have hrest := ih (fun e he => h e (List.mem_cons_of_mem _ he))
      simp [filterME, hx, hrest]

/-- The history truncation keeps at most `MAX_HISTORY_PER_ENTITY` entries. -/
theorem trunc_length_le (l : List PyVal) :
    (if l.length > MAX_HISTORY_PER_ENTITY
      then l.drop (l.length - MAX_HISTORY_PER_ENTITY) else l).length ≤
      MAX_HISTORY_PER_ENTITY := by
  by_cases h : l.length > MAX_HISTORY_PER_ENTITY
  · simp [h, List.length_drop]; omega
  · simp [h]; omega

/-- The history truncation only keeps elements of the original list. -/
theorem trunc_subset (l : List PyVal) :
    ∀ e ∈ (if l.length > MAX_HISTORY_PER_ENTITY
      then l.drop (l.length - MAX_HISTORY_PER_ENTITY) else l), e ∈ l := by
  by_cases h : l.length > MAX_HISTORY_PER_ENTITY
  · simp only [if_pos h]
    exact fun e he => List.drop_subset _ _ he
  · simp only [if_neg h]
    exact fun e he => he

/-- A numeric-field write whose key differs from the read key is invisible. -/
theorem coerce_get_ne (d : List (String × PyVal)) (g f : String) (h : g ≠ f) :
    dictGet (coerce_numeric_field d g) f = dictGet d f := by
  unfold coerce_numeric_field
  cases hg : dictGet d g with
  | none => rfl
  | some v => cases hc : pyFloatCoerce v <;> simp [hg, hc, dictGet_dictSet, h]

/-- Reading the field a numeric-field step just processed: present values
are replaced by their float coercion, or by `None` on coercion failure. -/
theorem coerce_get_self (d : List (String × PyVal)) (f : String) :
    dictGet (coerce_numeric_field d f) f = (dictGet d f).map (fun v =>
      match pyFloatCoerce v with
      | some q => PyVal.float q
      | Option.none => PyVal.none) := by
  unfold coerce_numeric_field
  cases h : dictGet d f with
  | none => simp [h]
  | some v => cases hc : pyFloatCoerce v <;> simp [h, hc, dictGet_dictSet]

/-- A numeric-field step is the identity when the field is absent or already
cleaned (a float, or `None`). -/
theorem coerce_idem (d : List (String × PyVal)) (f : String)
    (h : dictGet d f = Option.none ∨ (∃ q, dictGet d f = some (PyVal.float q)) ∨
      dictGet d f = some PyVal.none) :
    coerce_numeric_field d f = d := by
  unfold coerce_numeric_field
  rcases h with h | ⟨q, h⟩ | h
  · simp [h]
  · simp [h, pyFloatCoerce, dictSet_eq_self d f _ h]
  · simp [h, pyFloatCoerce, dictSet_eq_self d f _ h]

/-- The numeric-field loop unfolded over its literal field list. -/
theorem clean_numeric_fields_unfold (d : List (String × PyVal)) :
    clean_numeric_fields d =
      coerce_numeric_field (coerce_numeric_field (coerce_numeric_field
        (coerce_numeric_field d "last_event") "interval_ewma") "threshold")
        "interval_variance" := rfl

/-- The numeric-field loop does not touch keys outside its field list. -/
theorem nf_get_other (d : List (String × PyVal)) (f : String)
    (h1 : f ≠ "last_event") (h2 : f ≠ "interval_ewma") (h3 : f ≠ "threshold")
    (h4 : f ≠ "interval_variance") :
    dictGet (clean_numeric_fields d) f = dictGet d f := by
  rw [clean_numeric_fields_unfold,
    coerce_get_ne _ _ _ (Ne.symm h4), coerce_get_ne _ _ _ (Ne.symm h3),
    coerce_get_ne _ _ _ (Ne.symm h2), coerce_get_ne _ _ _ (Ne.symm h1)]

/-- After the numeric-field loop every field of its list holds the float
coercion of its previous value (or `None`). -/
theorem nf_get_numeric (d : List (String × PyVal)) (f : String)
    (hf : f ∈ NUMERIC_FIELDS) :
    dictGet (clean_numeric_fields d) f = (dictGet d f).map (fun v =>
      match pyFloatCoerce v with
      | some q => PyVal.float q
      | Option.none => PyVal.none) := by
  rw [clean_numeric_fields_unfold]
  fin_cases hf
  · rw [coerce_get_ne _ _ _ (by decide), coerce_get_ne _ _ _ (by decide),
      coerce_get_ne _ _ _ (by decide), coerce_get_self]
  · rw [coerce_get_ne _ _ _ (by decide), coerce_get_ne _ _ _ (by decide),
      coerce_get_self, coerce_get_ne _ _ _ (by decide)]
  · rw [coerce_get_ne _ _ _ (by decide), coerce_get_self,
      coerce_get_ne _ _ _ (by decide), coerce_get_ne _ _ _ (by decide)]
  · rw [coerce_get_self, coerce_get_ne _ _ _ (by decide),
      coerce_get_ne _ _ _ (by decide), coerce_get_ne _ _ _ (by decide)]

/-- The event-count step does not touch other keys. -/
theorem ec_get_ne (d : List (String × PyVal)) (f : String)
    (h : f ≠ "event_count") :
    dictGet (clean_event_count d) f = dictGet d f := by
  unfold clean_event_count
  cases hg : dictGet d "event_count" with
  | none => rfl
  | some v =>
      have hne : "event_count" ≠ f := fun hx => h hx.symm
      simp [hg, dictGet_dictSet, hne]

/-- After the event-count step a present `event_count` is a non-negative
integer. -/
theorem ec_get_self (d : List (String × PyVal)) (v : PyVal)
    (h : dictGet d "event_count" = some v) :
    ∃ n : Int, 0 ≤ n ∧
      dictGet (clean_event_count d) "event_count" = some (PyVal.int n) := by
  unfold clean_event_count
  rw [h]
  refine ⟨(match pyIntCoerce v with
    | some m => if m < 0 then 0 else m
    | Option.none => 0), ?_, by simp [dictGet_dictSet]⟩
  cases hc : pyIntCoerce v with
  | none => simp [hc]
  | some m =>
      by_cases hm : m < 0 <;> simp [hc, hm]
      omega

/-- The event-count step is the identity on a non-negative stored integer. -/
theorem ec_idem (d : List (String × PyVal)) (n : Int) (hn : 0 ≤ n)
    (h : dictGet d "event_count" = some (PyVal.int n)) :
    clean_event_count d = d := by
  unfold clean_event_count
  rw [h]
  have hm : ¬ n < 0 := by omega
  simp [pyIntCoerce, hm, dictSet_eq_self d _ _ h]

/-- The health step does not touch other keys. -/
theorem lh_get_ne (d : List (String × PyVal)) (f : String)
    (h : f ≠ "last_health") :
    dictGet (clean_last_health d) f = dictGet d f := by
  unfold clean_last_health
  have hne : "last_health" ≠ f := fun hx => h hx.symm
  cases hg : dictGet d "last_health" with
  | none => rfl
  | some v =>
      cases v with
      | str s =>
          by_cases hs : s ∈ VALID_HEALTH_STATES <;> simp [hs, dictGet_dictSet, hne]
      | none => simp [dictGet_dictSet, hne]
      | bool x => simp [dictGet_dictSet, hne]
      | int x => simp [dictGet_dictSet, hne]
      | float x => simp [dictGet_dictSet, hne]
      | list x => simp [dictGet_dictSet, hne]
      | dict x => simp [dictGet_dictSet, hne]

/-- After the health step a present `last_health` is a valid health
string. -/
theorem lh_get_self (d : List (String × PyVal)) (v : PyVal)
    (h : dictGet d "last_health" = some v) :
    ∃ s, dictGet (clean_last_health d) "last_health" = some (PyVal.str s) ∧
      s ∈ VALID_HEALTH_STATES := by
  unfold clean_last_health
  rw [h]
  cases v with
  | str s =>
      by_cases hs : s ∈ VALID_HEALTH_STATES
      · exact ⟨s, by simp [hs, h], hs⟩
      · exact ⟨"unknown", by simp [hs, dictGet_dictSet], by decide⟩
  | none => exact ⟨"unknown", by simp [dictGet_dictSet], by decide⟩
  | bool b => exact ⟨"unknown", by simp [dictGet_dictSet], by decide⟩
  | int n => exact ⟨"unknown", by simp [dictGet_dictSet], by decide⟩
  | float q => exact ⟨"unknown", by simp [dictGet_dictSet], by decide⟩
  | list l => exact ⟨"unknown", by simp [dictGet_dictSet], by decide⟩
  | dict entries => exact ⟨"unknown", by simp [dictGet_dictSet], by decide⟩

/-- The health step is the identity when `last_health` is absent or already
a valid health string. -/
theorem lh_idem (d : List (String × PyVal))
    (h : dictGet d "last_health" = Option.none ∨
      ∃ s, dictGet d "last_health" = some (PyVal.str s) ∧ s ∈ VALID_HEALTH_STATES) :
    clean_last_health d = d := by
  unfold clean_last_health
  rcases h with h | ⟨s, h, hs⟩
  · rw [h]
  · rw [h]; simp [hs]

/-- The technical-context step does not touch other keys. -/
theorem ctx_get_ne (d : List (String × PyVal)) (f : String)
    (h : f ≠ "technical_context") :
    dictGet (clean_technical_context d) f = dictGet d f := by
  unfold clean_technical_context
  have hne : "technical_context" ≠ f := fun hx => h hx.symm
  cases hg : dictGet d "technical_context" with
  | none => simp [dictGet_dictSet, hne]
  | some v => cases v <;> simp [dictGet_dictSet, hne]

/-- After the technical-context step the key is present and holds a dict. -/
theorem ctx_get_self (d : List (String × PyVal)) :
    ∃ entries, dictGet (clean_technical_context d) "technical_context" =
      some (PyVal.dict entries) := by
  unfold clean_technical_context
  cases hg : dictGet d "technical_context" with
  | none => exact ⟨[], by simp [dictGet_dictSet]⟩
  | some v =>
      cases v with
      | dict entries => exact ⟨entries, hg⟩
      | none => exact ⟨[], by simp [dictGet_dictSet]⟩
      | bool b => exact ⟨[], by simp [dictGet_dictSet]⟩
      | int n => exact ⟨[], by simp [dictGet_dictSet]⟩
      | float q => exact ⟨[], by simp [dictGet_dictSet]⟩
      | str s => exact ⟨[], by simp [dictGet_dictSet]⟩
      | list l => exact ⟨[], by simp [dictGet_dictSet]⟩

/-- The technical-context step is the identity when the key already holds a
dict. -/
theorem ctx_idem (d : List (String × PyVal)) (entries : List (String × PyVal))
    (h : dictGet d "technical_context" = some (PyVal.dict entries)) :
    clean_technical_context d = d := by
  unfold clean_technical_context
  rw [h]

/-- History cleaning does not touch other keys. -/
theorem ch_get_ne (now : ℚ) (d d1 : List (String × PyVal)) (f : String)
    (h : clean_history now d = Except.ok d1) (hf : f ≠ "history") :
    dictGet d1 f = dictGet d f := by
  have hne : "history" ≠ f := fun hx => hf hx.symm
  unfold clean_history at h
  split at h
  · split at h
    · simp at h
    · rename_i kept hfil
      simp only [Except.ok.injEq] at h
      rw [← h, dictGet_dictSet]
      simp [hne]
  · simp only [Except.ok.injEq] at h
    rw [← h]

/-- The history held by the output of history cleaning: if it is a list,
each entry passes the age filter and the length respects the cap. -/
theorem ch_get_hist (now : ℚ) (d d1 : List (String × PyVal))
    (h : clean_history now d = Except.ok d1) :
    ∀ evs, dictGet d1 "history" = some (PyVal.list evs) →
      (∀ e ∈ evs,
        historyKeep (now - (MAX_HISTORY_AGE_DAYS : ℚ) * 86400) e = Except.ok true) ∧
      evs.length ≤ MAX_HISTORY_PER_ENTITY := by
  unfold clean_history at h
  split at h
  · rename_i evs0 heq
    split at h
    · simp at h
    · rename_i kept hfil
      simp only [Except.ok.injEq] at h
      subst h
      intro evs hevs
      rw [dictGet_dictSet] at hevs
      simp only [if_true, eq_self_iff_true, Option.some.injEq, PyVal.list.injEq] at hevs
      subst hevs
      constructor
      · intro e he
        exact filterME_out_true _ _ _ hfil e (trunc_subset kept e he)
      · exact trunc_length_le kept
  · rename_i hdef
    simp only [Except.ok.injEq] at h
    subst h
    intro evs hevs
    exact absurd (hevs ▸ hdef evs) (fun hx => hx rfl)

/-- History cleaning is the identity on a dict whose history (when a list)
already passes the filter and the cap. -/
theorem clean_history_idem (now : ℚ) (d : List (String × PyVal))
    (h : ∀ evs, dictGet d "history" = some (PyVal.list evs) →
      (∀ e ∈ evs,
        historyKeep (now - (MAX_HISTORY_AGE_DAYS : ℚ) * 86400) e = Except.ok true) ∧
      evs.length ≤ MAX_HISTORY_PER_ENTITY) :
    clean_history now d = Except.ok d := by
  unfold clean_history
  split
  · rename_i evs heq
    rcases h evs heq with ⟨hall, hlen⟩
    rw [filterME_all_true _ _ hall]
    have hgt : ¬ evs.length > MAX_HISTORY_PER_ENTITY := by omega
    simp only [hgt, if_false, dictSet_eq_self d _ _ heq]
  · rfl

/-- The numeric-field loop is the identity when all four fields are absent
or already cleaned. -/
theorem nf_idem (d : List (String × PyVal))
    (h : ∀ f ∈ NUMERIC_FIELDS, dictGet d f = Option.none ∨
      (∃ q, dictGet d f = some (PyVal.float q)) ∨ dictGet d f = some PyVal.none) :
    clean_numeric_fields d = d := by
  rw [clean_numeric_fields_unfold,
    coerce_idem d "last_event" (h _ (by decide)),
    coerce_idem d "interval_ewma" (h _ (by decide)),
    coerce_idem d "threshold" (h _ (by decide)),
    coerce_idem d "interval_variance" (h _ (by decide))]

/-- Validating an entity record a second time reproduces it unchanged: the
cleaned record has its required fields present, a history that passes its
own filter, numeric fields that are floats or `None`, a non-negative
integer event count, a valid health string (if any) and a dict technical
context, and each cleaning step fixes such data. -/
theorem clean_entity_state_idem (now : ℚ) (v w : PyVal)
    (h : clean_entity_state now v = Except.ok (some w)) :
    clean_entity_state now w = Except.ok (some w) := by
  cases v with
  | dict d =>
    unfold clean_entity_state at h
    simp only [] at h
    by_cases hreq : (dictHas d "last_event" && dictHas d "event_count") = true
    case neg => rw [if_neg hreq] at h; simp at h
    case pos =>
    rw [if_pos hreq] at h
    cases hch : clean_history now d with
    | error err => rw [hch] at h; simp at h
    | ok d1 =>
    rw [hch] at h
    simp only [Except.ok.injEq, Option.some.injEq] at h
    subst h
    rw [Bool.and_eq_true] at hreq
    obtain ⟨hle, hec⟩ := hreq
    rcases Option.isSome_iff_exists.mp hle with ⟨vle, hvle⟩
    rcases Option.isSome_iff_exists.mp hec with ⟨vec, hvec⟩
    -- get-facts on the intermediate dicts
    have hd1le : dictGet d1 "last_event" = some vle := by
      rw [ch_get_ne now d d1 _ hch (by decide)]; exact hvle
    have hd1ec : dictGet d1 "event_count" = some vec := by
      rw [ch_get_ne now d d1 _ hch (by decide)]; exact hvec
    have he1le : dictGet (clean_numeric_fields d1) "last_event" =
        some (match pyFloatCoerce vle with
          | some q => PyVal.float q
          | Option.none => PyVal.none) := by
      rw [nf_get_numeric d1 _ (by decide), hd1le]
      rfl
    have he1ec : dictGet (clean_numeric_fields d1) "event_count" = some vec := by
      rw [nf_get_other d1 _ (by decide) (by decide) (by decide) (by decide)]
      exact hd1ec
    rcases ec_get_self (clean_numeric_fields d1) vec he1ec with ⟨n, hn0, he2ec⟩
    -- abbreviations for the successive dicts
    have he2le : dictGet (clean_event_count (clean_numeric_fields d1)) "last_event" =
        dictGet (clean_numeric_fields d1) "last_event" :=
      ec_get_ne _ _ (by decide)
    -- the final cleaned dict
    set e2 := clean_event_count (clean_numeric_fields d1) with he2def
    set e3 := clean_last_health e2 with he3def
    set d2 := clean_technical_context e3 with hd2def
    have he3le : dictGet e3 "last_event" = dictGet e2 "last_event" :=
      lh_get_ne _ _ (by decide)
    have hd2le2 : dictGet d2 "last_event" = dictGet e3 "last_event" :=
      ctx_get_ne _ _ (by decide)
    have hd2le : dictGet d2 "last_event" =
        some (match pyFloatCoerce vle with
          | some q => PyVal.float q
          | Option.none => PyVal.none) := by
      rw [hd2le2, he3le, he2le, he1le]
    have hd2ec : dictGet d2 "event_count" = some (PyVal.int n) := by
      rw [ctx_get_ne _ _ (by decide), lh_get_ne _ _ (by decide)]
      exact he2ec
    have hd2hist : dictGet d2 "history" = dictGet d1 "history" := by
      rw [ctx_get_ne _ _ (by decide), lh_get_ne _ _ (by decide),
        ec_get_ne _ _ (by decide),
        nf_get_other d1 _ (by decide) (by decide) (by decide) (by decide)]
    have hd2lh : dictGet d2 "last_health" = Option.none ∨
        ∃ s, dictGet d2 "last_health" = some (PyVal.str s) ∧
          s ∈ VALID_HEALTH_STATES := by
      rw [ctx_get_ne _ _ (by decide)]
      cases hlh2 : dictGet e2 "last_health" with
      | none =>
          left
          rw [he3def]
          unfold clean_last_health
          rw [hlh2, hlh2]
      | some vlh =>
          right
          rcases lh_get_self e2 vlh hlh2 with ⟨s, hs1, hs2⟩
          exact ⟨s, hs1, hs2⟩
    rcases ctx_get_self e3 with ⟨ctxEntries, hd2ctx⟩
    have hd2num : ∀ f ∈ NUMERIC_FIELDS, dictGet d2 f = Option.none ∨
        (∃ q, dictGet d2 f = some (PyVal.float q)) ∨
        dictGet d2 f = some PyVal.none := by
      intro f hf
      have hfne1 : f ≠ "event_count" := by fin_cases hf <;> decide
      have hfne2 : f ≠ "last_health" := by fin_cases hf <;> decide
      have hfne3 : f ≠ "technical_context" := by fin_cases hf <;> decide
      have : dictGet d2 f = dictGet (clean_numeric_fields d1) f := by
        rw [hd2def, ctx_get_ne _ _ hfne3, he3def, lh_get_ne _ _ hfne2,
          he2def, ec_get_ne _ _ hfne1]
      rw [this, nf_get_numeric d1 f hf]
      cases hget : dictGet d1 f with
      | none => exact Or.inl rfl
      | some u =>
          cases hc : pyFloatCoerce u with
          | none => exact Or.inr (Or.inr (by simp [hc]))
          | some q => exact Or.inr (Or.inl ⟨q, by simp [hc]⟩)
    -- second pass
    unfold clean_entity_state
    simp only []
    have hreq2 : (dictHas d2 "last_event" && dictHas d2 "event_count") = true := by
      rw [Bool.and_eq_true]
      constructor
      · rw [dictHas, hd2le]; rfl
      · rw [dictHas, hd2ec]; rfl
    rw [if_pos hreq2]
    have hch2 : clean_history now d2 = Except.ok d2 := by
      apply clean_history_idem
      intro evs hevs
      rw [hd2hist] at hevs
      exact ch_get_hist now d d1 hch evs hevs
    rw [hch2]
    simp only []
    have hnf2 : clean_numeric_fields d2 = d2 := nf_idem d2 hd2num
    have hec2 : clean_event_count d2 = d2 := ec_idem d2 n hn0 hd2ec
    have hlh2 : clean_last_health d2 = d2 := lh_idem d2 hd2lh
    have hctx2 : clean_technical_context d2 = d2 := ctx_idem d2 ctxEntries hd2ctx
    rw [hnf2, hec2, hlh2, hctx2]
  | none => simp [clean_entity_state] at h
  | bool b => simp [clean_entity_state] at h
  | int n => simp [clean_entity_state] at h
  | float q => simp [clean_entity_state] at h
  | str s => simp [clean_entity_state] at h
  | list l => simp [clean_entity_state] at h

/-- The per-entity loop grows its accumulator by at most one entry per
input entity. -/
theorem cleanEntitiesLoop_length (now : ℚ) (l : List (String × PyVal)) :
    ∀ acc out, cleanEntitiesLoop now acc l = Except.ok out →
      out.length ≤ acc.length + l.length := by
  induction l with
  | nil =>
      intro acc out h
      simp only [cleanEntitiesLoop, Except.ok.injEq] at h
      subst h; simp
  | cons kv rest ih =>
      intro acc out h
      simp only [cleanEntitiesLoop] at h
      cases hc : clean_entity_state now kv.2 with
      | error err => rw [hc] at h; simp at h
      | ok o =>
          rw [hc] at h
          cases o with
          | none =>
              have := ih acc out h
              simp only [List.length_cons]
              omega
          | some w =>
              have h1 := ih (dictSet acc kv.1 w) out h
              have h2 := dictSet_length_le acc kv.1 w
              simp only [List.length_cons]
              omega

/-- Every entry the loop outputs is a fixed point of per-entity cleaning. -/
theorem cleanEntitiesLoop_members (now : ℚ) (l : List (String × PyVal)) :
    ∀ acc out, (∀ x ∈ acc, clean_entity_state now x.2 = Except.ok (some x.2)) →
      cleanEntitiesLoop now acc l = Except.ok out →
      ∀ x ∈ out, clean_entity_state now x.2 = Except.ok (some x.2) := by
  induction l with
  | nil =>
      intro acc out hacc h
      simp only [cleanEntitiesLoop, Except.ok.injEq] at h
      subst h; exact hacc
  | cons kv rest ih =>
      intro acc out hacc h
      simp only [cleanEntitiesLoop] at h
      cases hc : clean_entity_state now kv.2 with
      | error err => rw [hc] at h; simp at h
      | ok o =>
          rw [hc] at h
          cases o with
          | none => exact ih acc out hacc h
          | some w =>
              refine ih (dictSet acc kv.1 w) out ?_ h
              intro x hx
              rcases mem_dictSet acc kv.1 w x hx with hx2 | rfl
              · exact hacc x hx2
              · exact clean_entity_state_idem now kv.2 w hc

/-- The loop preserves uniqueness of the accumulated keys. -/
theorem cleanEntitiesLoop_nodup (now : ℚ) (l : List (String × PyVal)) :
    ∀ acc out, (acc.map Prod.fst).Nodup →
      cleanEntitiesLoop now acc l = Except.ok out →
      (out.map Prod.fst).Nodup := by
  induction l with
  | nil =>
      intro acc out hacc h
      simp only [cleanEntitiesLoop, Except.ok.injEq] at h
      subst h; exact hacc
  | cons kv rest ih =>
      intro acc out hacc h
      simp only [cleanEntitiesLoop] at h
      cases hc : clean_entity_state now kv.2 with
      | error err => rw [hc] at h; simp at h
      | ok o =>
          rw [hc] at h
          cases o with
          | none => exact ih acc out hacc h
          | some w => exact ih _ out (nodup_keys_dictSet acc kv.1 w hacc) h

/-- Replaying the loop over an already-cleaned store with unique keys
reproduces it verbatim. -/
theorem cleanEntitiesLoop_replay (now : ℚ) (l : List (String × PyVal)) :
    ∀ acc, (∀ x ∈ l, clean_entity_state now x.2 = Except.ok (some x.2)) →
      ((acc ++ l).map Prod.fst).Nodup →
      cleanEntitiesLoop now acc l = Except.ok (acc ++ l) := by
  induction l with
  | nil => intro acc _ _; simp [cleanEntitiesLoop]
  | cons kv rest ih =>
      intro acc hfix hnd
      obtain ⟨k, w⟩ := kv
      have hc : clean_entity_state now w = Except.ok (some w) :=
        hfix (k, w) (List.mem_cons_self _ _)
      have hknotin : k ∉ acc.map Prod.fst := by
        rw [List.map_append] at hnd
        rcases List.nodup_append.mp hnd with ⟨-, -, hdisj⟩
        intro hk
        exact hdisj hk (by simp)
      have hset : dictSet acc k w = acc ++ [(k, w)] :=
        dictSet_of_not_has acc k w ((dictGet_eq_none_iff acc k).mpr hknotin)
      simp only [cleanEntitiesLoop, hc, hset]
      have hre : (acc ++ [(k, w)]) ++ rest = acc ++ (k, w) :: rest := by
        simp
      rw [ih (acc ++ [(k, w)])
        (fun x hx => hfix x (List.mem_cons_of_mem _ hx)) (by rw [hre]; exact hnd), hre]

/-- The pruning step never returns more than the maximum entity count. -/
theorem prune_oversize_length (entries e2 : List (String × PyVal))
    (issues : List String)
    (h : prune_oversize entries = Except.ok (e2, issues)) :
    e2.length ≤ MAX_LEARNING_STATE_SIZE := by
  unfold prune_oversize at h
  by_cases hlen : entries.length > MAX_LEARNING_STATE_SIZE
  · rw [if_pos hlen] at h
    cases hs : sortByLastEventDesc entries with
    | error err => rw [hs] at h; simp at h
    | ok sorted =>
        rw [hs] at h
        simp only [Except.ok.injEq, Prod.mk.injEq] at h
        rw [← h.1]
        simp [List.length_take]
  · rw [if_neg hlen] at h
    simp only [Except.ok.injEq, Prod.mk.injEq] at h
    rw [← h.1]
    omega

/-- A store within the size limit is not pruned. -/
theorem prune_oversize_small (entries : List (String × PyVal))
    (h : ¬ entries.length > MAX_LEARNING_STATE_SIZE) :
    prune_oversize entries = Except.ok (entries, []) := by
  unfold prune_oversize
  rw [if_neg h]

/-- C9: the validator is idempotent at a fixed reference time: whenever
`validate_learning_state` returns a cleaned store, running it again on that
cleaned store succeeds and returns the identical cleaned store. -/
theorem validate_learning_state_idempotent (now : ℚ) (v : PyVal) (b : Bool)
    (msg : String) (c : PyVal)
    (h : validate_learning_state now v = Except.ok (b, msg, c)) :
    ∃ msg2, validate_learning_state now c = Except.ok (true, msg2, c) := by
  cases v with
  | dict entries =>
    unfold validate_learning_state at h
    simp only [] at h
    cases hp : prune_oversize entries with
    | error err => rw [hp] at h; simp at h
    | ok pr =>
        obtain ⟨e2, issues⟩ := pr
        rw [hp] at h
        simp only [] at h
        cases hl : cleanEntitiesLoop now [] e2 with
        | error err => rw [hl] at h; simp at h
        | ok cleaned =>
            rw [hl] at h
            simp only [Except.ok.injEq, Prod.mk.injEq] at h
            obtain ⟨hb, hmsg, hc⟩ := h
            subst hc
            have h1 : cleaned.length ≤ e2.length := by
              have h2 := cleanEntitiesLoop_length now e2 [] cleaned hl
              simpa using h2
            have hlen : cleaned.length ≤ MAX_LEARNING_STATE_SIZE :=
              le_trans h1 (prune_oversize_length entries e2 issues hp)
            have hfix := cleanEntitiesLoop_members now e2 [] cleaned
              (fun x hx => absurd hx (List.not_mem_nil x)) hl
            have hnd := cleanEntitiesLoop_nodup now e2 [] cleaned (by simp) hl
            refine ⟨validateMessage [], ?_⟩
            unfold validate_learning_state
            simp only []
            rw [prune_oversize_small cleaned (not_lt.mpr hlen)]
            simp only []
            rw [cleanEntitiesLoop_replay now cleaned [] hfix (by simpa using hnd)]
            rfl
  | none =>
      unfold validate_learning_state at h
      simp only [Except.ok.injEq, Prod.mk.injEq] at h
      obtain ⟨-, -, hc⟩ := h
      subst hc
      exact ⟨"Learning state validated", rfl⟩
  | bool x =>
      unfold validate_learning_state at h
      simp only [Except.ok.injEq, Prod.mk.injEq] at h
      obtain ⟨-, -, hc⟩ := h
      subst hc
      exact ⟨"Learning state validated", rfl⟩
  | int x =>
      unfold validate_learning_state at h
      simp only [Except.ok.injEq, Prod.mk.injEq] at h
      obtain ⟨-, -, hc⟩ := h
      subst hc
      exact ⟨"Learning state validated", rfl⟩
  | float x =>
      unfold validate_learning_state at h
      simp only [Except.ok.injEq, Prod.mk.injEq] at h
      obtain ⟨-, -, hc⟩ := h
      subst hc
      exact ⟨"Learning state validated", rfl⟩
  | str x =>
      unfold validate_learning_state at h
      simp only [Except.ok.injEq, Prod.mk.injEq] at h
      obtain ⟨-, -, hc⟩ := h
      subst hc
      exact ⟨"Learning state validated", rfl⟩
  | list x =>
      unfold validate_learning_state at h
      simp only [Except.ok.injEq, Prod.mk.injEq] at h
      obtain ⟨-, -, hc⟩ := h
      subst hc
      exact ⟨"Learning state validated", rfl⟩

/-- C9 (witness): validating a small store and applying the idempotence
theorem to its cleaned output. -/
theorem validate_learning_state_idempotent_witness :
    ∃ msg2, validate_learning_state 1000 c9_cleaned_example =
      Except.ok (true, msg2, c9_cleaned_example) :=
  validate_learning_state_idempotent 1000 c9_input_example true
    "Learning state validated" c9_cleaned_example rfl
